import Mathlib

/-!
Shallow embedding of the RAG_Adv repository (semantic chunking + embedding store +
retrieval pipeline) and proofs about the claims of its specification.

Strings are modelled as `List Char` (`Str`), so that the Python string operations
(`split`, `strip`, `lower`, slicing) become structurally recursive Lean functions
amenable to induction.  External collaborators (embedding service, vector store
backend, chat completion service) are modelled as oracle parameters, following the
narrow request/response contracts the code uses.  Similarity scores are rationals.
-/

namespace RAGAdv

/-- Text is a list of characters; mirrors Python `str` for the operations used. -/
abbrev Str := List Char

/-- `text.split('\n\n')` from the fallback path of `apply_semantic_chunking`:
split on non-overlapping occurrences of a blank line (two newline characters),
leftmost first, keeping empty pieces.  `splitBlank [] = [[]]`, as in Python. -/
def splitBlank : Str → List Str
  | [] => [[]]
  | [c] => [[c]]
  | c :: d :: rest =>
    if c = '\n' ∧ d = '\n' then [] :: splitBlank rest
    else
      match splitBlank (d :: rest) with
      | [] => [[c]]
      | p :: ps => (c :: p) :: ps

/-- Concatenation of pieces with the separator `"\n\n"` re-inserted between them:
the inverse direction of `splitBlank` used to state the partition property. -/
def joinBlank : List Str → Str
  | [] => []
  | [p] => p
  | p :: ps => p ++ '\n' :: '\n' :: joinBlank ps

/-- Python `str.strip()`: drop leading and trailing whitespace characters. -/
def pyStrip (s : Str) : Str :=
  ((s.dropWhile Char.isWhitespace).reverse.dropWhile Char.isWhitespace).reverse

/-- `content.split('\n')` from `generate_similar_question`. -/
def splitNl : Str → List Str
  | [] => [[]]
  | c :: rest =>
    if c = '\n' then [] :: splitNl rest
    else
      match splitNl rest with
      | [] => [[c]]
      | p :: ps => (c :: p) :: ps

/-- Python `str.lower()` restricted to the characters the code compares. -/
def pyLower (s : Str) : Str := s.map Char.toLower

/-! ## Semantic chunker (`pure_semantic_chunker.py`) -/

/-- The metadata dictionary built per chunk by `apply_semantic_chunking`:
`source_text`, `chunk_index`, `start_index`, `end_index` (always `None` there)
and `chunk_size`. -/
structure SCMeta where
  source_text : Nat
  chunk_index : Nat
  start_index : Option Nat
  end_index : Option Nat
  chunk_size : Nat
deriving DecidableEq, Repr

/-- The semantic-path inner loop of `apply_semantic_chunking`: for section `i`,
append every chunk `split_text` returned, pairing it with metadata whose
`chunk_index` is its position `j` and whose `chunk_size` is its length. -/
def semanticLoop (i : Nat) : Nat → List Str → List Str × List SCMeta
  | _, [] => ([], [])
  | j, chunk :: rest =>
    let (cs, ms) := semanticLoop i (j + 1) rest
    (chunk :: cs, ⟨i, j, none, none, chunk.length⟩ :: ms)

/-- The fallback inner loop of `apply_semantic_chunking`: enumerate the pieces of
the blank-line split, keep `piece.strip()` whenever it is non-empty, recording the
raw enumeration index `j` as `chunk_index` and the stripped length as `chunk_size`. -/
def fallbackLoop (i : Nat) : Nat → List Str → List Str × List SCMeta
  | _, [] => ([], [])
  | j, piece :: rest =>
    let (cs, ms) := fallbackLoop i (j + 1) rest
    if pyStrip piece = [] then (cs, ms)
    else (pyStrip piece :: cs, ⟨i, j, none, none, (pyStrip piece).length⟩ :: ms)

/-- Outer loop of `apply_semantic_chunking` over the sections, with the external
`chunker.split_text` modelled as an oracle that either returns the chunks of a
section or raises (`Except.error`), triggering the blank-line fallback. -/
def applyChunkLoop (chunker : Str → Except Unit (List Str)) :
    Nat → List Str → List Str × List SCMeta
  | _, [] => ([], [])
  | i, text :: ts =>
    let (cs, ms) :=
      match chunker text with
      | .ok chunks => semanticLoop i 0 chunks
      | .error _ => fallbackLoop i 0 (splitBlank text)
    let (cs2, ms2) := applyChunkLoop chunker (i + 1) ts
    (cs ++ cs2, ms ++ ms2)

/-- `apply_semantic_chunking(texts, chunker)`: returns `(all_chunks, chunk_metadata)`. -/
def apply_semantic_chunking (chunker : Str → Except Unit (List Str)) (texts : List Str) :
    List Str × List SCMeta :=
  applyChunkLoop chunker 0 texts

/-! ## Embedding manager (`embedding_manager.py`)

The vector store is a list of persisted documents; the embedding service and the
backend similarity search are oracle parameters. -/

/-- Metadata as persisted by `create_embeddings_from_chunks`: a copy of the
chunker metadata extended with `chunk_id` and `embedding_model`. -/
structure StoredMeta where
  base : SCMeta
  chunk_id : Nat
  embedding_model : Str
deriving DecidableEq, Repr

/-- A LangChain `Document`: page content plus metadata. -/
structure Doc where
  page_content : Str
  metadata : StoredMeta
deriving DecidableEq, Repr

/-- The Chroma collection: the persisted records. -/
structure Store where
  records : List Doc
deriving DecidableEq, Repr

/-- The configuration fields of `EmbeddingManager` used by the modelled methods. -/
structure EmbeddingManager where
  embedding_model : Str
  persist_directory : Str
  collection_name : Str
deriving DecidableEq, Repr

/-- The document-building loop of `create_embeddings_from_chunks`: for
`i, (chunk, meta) in enumerate(zip(chunks, metadata))`, copy `meta`, set
`chunk_id := i` and `embedding_model`, and wrap into a `Document`. -/
def buildDocuments (mgr : EmbeddingManager) : Nat → List (Str × SCMeta) → List Doc
  | _, [] => []
  | i, (chunk, meta) :: rest =>
    ⟨chunk, ⟨meta, i, mgr.embedding_model⟩⟩ :: buildDocuments mgr (i + 1) rest

/-- `create_embeddings_from_chunks(chunks, metadata)`.  The external
`add_documents` call embeds every document through the embedding service
(oracle `embed`); if every embedding succeeds the documents are appended to the
collection and the method returns `True`, otherwise the raised exception is
caught and the method returns `False`. -/
def create_embeddings_from_chunks (mgr : EmbeddingManager)
    (embed : Str → Option (List ℚ)) (store : Store)
    (chunks : List Str) (metadata : List SCMeta) : Bool × Store :=
  let documents := buildDocuments mgr 0 (chunks.zip metadata)
  if documents.all fun d => (embed d.page_content).isSome then
    (true, ⟨store.records ++ documents⟩)
  else
    (false, store)

/-- The statistics dictionary of `get_database_stats`. -/
structure Stats where
  total_chunks : Nat
  embedding_model : Str
  collection_name : Str
  persist_directory : Str
deriving DecidableEq, Repr

/-- `get_database_stats()`: `total_chunks` is the collection count. -/
def get_database_stats (mgr : EmbeddingManager) (store : Store) : Stats :=
  ⟨store.records.length, mgr.embedding_model, mgr.collection_name, mgr.persist_directory⟩

/-- One entry of the list returned by `search_similar_chunks`. -/
structure SearchResult where
  content : Str
  metadata : StoredMeta
  similarity_score : ℚ
deriving DecidableEq, Repr

/-- The filtering loop of `search_similar_chunks`: keep a hit when its score is
at least the threshold and the first 100 characters of its content have not been
seen yet; record kept previews in `seen`. -/
def dedupLoop (th : ℚ) : List (Doc × ℚ) → List Str → List SearchResult
  | [], _ => []
  | (doc, score) :: rest, seen =>
    if th ≤ score then
      if doc.page_content.take 100 ∈ seen then
        dedupLoop th rest seen
      else
        ⟨doc.page_content, doc.metadata, score⟩
          :: dedupLoop th rest (doc.page_content.take 100 :: seen)
    else
      dedupLoop th rest seen

/-- `search_similar_chunks(query, k, similarity_threshold)`.  The backend
`similarity_search_with_score(query, k)` is an oracle that either returns scored
documents or raises; a raised exception is caught and `[]` is returned. -/
def search_similar_chunks (backend : Str → Nat → Except Str (List (Doc × ℚ)))
    (query : Str) (k : Nat) (similarity_threshold : ℚ) : List SearchResult :=
  match backend query k with
  | .error _ => []
  | .ok results => dedupLoop similarity_threshold results []

/-- Modelled from the spec's words for the `search` contract (refinement target
for the dedup behaviour): keep the first occurrence of each first-100-characters
preview, drop later ones. -/
def specFirstOccurrenceWins : List (Doc × ℚ) → List Str → List SearchResult
  | [], _ => []
  | (doc, score) :: rest, seen =>
    if doc.page_content.take 100 ∈ seen then
      specFirstOccurrenceWins rest seen
    else
      ⟨doc.page_content, doc.metadata, score⟩
        :: specFirstOccurrenceWins rest (doc.page_content.take 100 :: seen)

/-- The spec-side description of `search` on a successful backend read: "discards
any whose similarity score is below `similarity_threshold`, then deduplicates by
comparing the first 100 characters of content". -/
def spec_search (hits : List (Doc × ℚ)) (th : ℚ) : List SearchResult :=
  specFirstOccurrenceWins (hits.filter fun h => decide (th ≤ h.2)) []

/-! ## LLM manager (`llm_manager.py`)

The chat completion service is an oracle that either returns the model's raw text
or raises.  The Python function returns a `list[str]` on success but a bare `str`
on failure, so its result type is the sum of the two. -/

/-- The literal error text built by the `except` branch of
`generate_similar_question` before the exception message is appended. -/
def gsqErrorText : Str := "❌ Error generating similar question: ".toList

/-- `generate_similar_question(query)`: on success, the completion text split on
newlines (`Sum.inr`); on a raised service exception, the formatted error string
itself (`Sum.inl`) — note the bare string, not a list. -/
def generate_similar_question (svc : Str → Except Str Str) (query : Str) :
    Sum Str (List Str) :=
  match svc query with
  | .ok content => .inr (splitNl content)
  | .error e => .inl (gsqErrorText ++ e)

/-! ## Orchestrator (`main.py`)

`main` and `run_search_mode` are modelled over an environment recording the
outcomes of the external interactions: whether the database file exists, the
operator's build-or-skip answer, the chunking and ingestion outcomes, and the
stream of question-loop inputs.  The body of the question loop (query expansion,
search, answer composition) returns values only and never changes the loop's
control flow, so the loop model keeps just the quit test. -/

/-- `user_question.lower() in ['quit', 'exit', 'q']` applied to the stripped input. -/
def isQuit (s : Str) : Bool :=
  pyLower s = "quit".toList ∨ pyLower s = "exit".toList ∨ pyLower s = "q".toList

/-- `user_choice.strip().lower() in ['y', 'yes']` from the build-or-skip prompt. -/
def acceptsBuild (choice : Str) : Bool :=
  pyLower (pyStrip choice) = "y".toList ∨ pyLower (pyStrip choice) = "yes".toList

/-- `run_search_mode`: consume stdin lines until a quit keyword; return `True`
(`some true`) on the quit keyword, and model input exhaustion (an uncaught
`EOFError`) as `none`.  Empty and non-empty non-quit inputs both continue. -/
def run_search_mode : List Str → Option Bool
  | [] => none
  | q :: rest =>
    if isQuit (pyStrip q) then some true else run_search_mode rest

/-- The environment of one `main()` run: the externally determined outcomes. -/
structure MainEnv where
  /-- `os.path.exists("chroma_db/chroma.sqlite3")`. -/
  db_exists : Bool
  /-- The raw answer typed at the `Create new database? (y/N)` prompt. -/
  user_choice : Str
  /-- Outcome of `run_semantic_chunker()`: its chunk/metadata results, or a
  raised exception (also standing for a failed `EmbeddingManager()` init). -/
  chunking : Except Str (List Str × List SCMeta)
  /-- Outcome of `create_embeddings_from_chunks` inside the pipeline. -/
  ingest_success : Bool
  /-- The stdin lines consumed by the question loop. -/
  questions : List Str

/-- `main()`: returns `run_search_mode`'s value when a store exists or after a
successful build, and `None` on a declined build or any pipeline failure. -/
def mainFn (env : MainEnv) : Option Bool :=
  if env.db_exists then
    run_search_mode env.questions
  else if ¬ acceptsBuild env.user_choice then
    none
  else
    match env.chunking with
    | .error _ => none
    | .ok _ =>
      if env.ingest_success then run_search_mode env.questions else none

/-- The `__main__` guard: `results = main(); if not results: exit(1)`.
`None` is falsy, `True` is truthy; a normal script end exits 0. -/
def exitCode (env : MainEnv) : Nat :=
  match mainFn env with
  | some true => 0
  | _ => 1

/-! ## Concrete fixtures used by counterexamples and witnesses -/

/-- The default embedding model identifier of `EmbeddingManager`. -/
def sampleModel : Str := "text-embedding-3-small".toList

/-- A chunker metadata record for section 0, chunk 0. -/
def meta0 : SCMeta := ⟨0, 0, none, none, 1⟩

/-- A chunker metadata record for section 0, chunk 1. -/
def meta1 : SCMeta := ⟨0, 1, none, none, 1⟩

/-- A stored document whose content collides with `dupDocB` on its preview. -/
def dupDocA : Doc := ⟨"dup".toList, ⟨meta0, 0, sampleModel⟩⟩

/-- A second stored document with the same content as `dupDocA` but different
metadata. -/
def dupDocB : Doc := ⟨"dup".toList, ⟨meta1, 1, sampleModel⟩⟩

/-- A backend returning two same-preview candidates, the first scoring 0.5 and
the second 0.9. -/
def dupBackend : Str → Nat → Except Str (List (Doc × ℚ)) :=
  fun _ _ => .ok [(dupDocA, mkRat 1 2), (dupDocB, mkRat 9 10)]

/-- A backend whose read raises. -/
def failBackend : Str → Nat → Except Str (List (Doc × ℚ)) :=
  fun _ _ => .error "db read failed".toList

/-- A chat completion service whose call raises. -/
def failSvc : Str → Except Str Str := fun _ => .error "boom".toList

/-- A `main()` environment in which no database exists and the operator declines
the build prompt. -/
def declineEnv : MainEnv := ⟨false, "n".toList, .ok ([], []), true, []⟩

/-- A concrete manager configuration. -/
def mgrFixture : EmbeddingManager :=
  ⟨sampleModel, "chroma_db".toList, "document_chunks".toList⟩

/-- An embedding oracle that always succeeds. -/
def embedFixture : Str → Option (List ℚ) := fun _ => some []

/-- An empty collection. -/
def storeFixture : Store := ⟨[]⟩

/-- A chunker oracle that succeeds on one known section and raises on others. -/
def chunkerFixture : Str → Except Unit (List Str) :=
  fun t => if t = "sec one".toList then .ok ["c1".toList, "c2".toList] else .error ()

/-- Two sections: one handled semantically, one through the fallback. -/
def textsFixture : List Str := ["sec one".toList, "bad\n\n \n\nxy".toList]

/-- Fallback example whose kept chunk indices are non-contiguous. -/
def gapText : Str := "a\n\n \n\nb".toList

/-- Fallback example with pieces needing trimming and a whitespace-only piece. -/
def trimText : Str := " a \n\nb\n\n \n\nc".toList

/-! ## Helper lemmas: splitting and stripping -/

/-- Unfolding equation of `splitBlank` at a blank-line separator. -/
theorem splitBlank_sep (c d : Char) (rest : Str) (h : c = '\n' ∧ d = '\n') :
    splitBlank (c :: d :: rest) = [] :: splitBlank rest := by
  simp only [splitBlank, if_pos h]

/-- Unfolding equation of `splitBlank` at a non-separator position. -/
theorem splitBlank_push (c d : Char) (rest : Str) (h : ¬(c = '\n' ∧ d = '\n'))
    (p : Str) (ps : List Str) (hs : splitBlank (d :: rest) = p :: ps) :
    splitBlank (c :: d :: rest) = (c :: p) :: ps := by
  simp only [splitBlank, if_neg h, hs]

theorem splitBlank_ne_nil (l : Str) : splitBlank l ≠ [] := by
  induction l using splitBlank.induct with
  | case1 => simp [splitBlank]
  | case2 c => simp [splitBlank]
  | case3 c d rest hcd ih => rw [splitBlank_sep c d rest hcd]; simp
  | case4 c d rest hcd hnil ih => exact absurd hnil ih
  | case5 c d rest hcd p ps hs ih => rw [splitBlank_push c d rest hcd p ps hs]; simp

theorem joinBlank_cons_cons (p q : Str) (ps : List Str) :
    joinBlank (p :: q :: ps) = p ++ '\n' :: '\n' :: joinBlank (q :: ps) := by
  rfl

/-- Key partition lemma: joining the pieces of `splitBlank` with the original
separators reconstructs the input exactly. -/
theorem joinBlank_splitBlank (l : Str) : joinBlank (splitBlank l) = l := by
  induction l using splitBlank.induct with
  | case1 => rfl
  | case2 c => rfl
  | case3 c d rest hcd ih =>
    obtain ⟨hc, hd⟩ := hcd
    rw [splitBlank_sep c d rest ⟨hc, hd⟩]
    rcases h : splitBlank rest with _ | ⟨p, ps⟩
    · exact absurd h (splitBlank_ne_nil rest)
    · rw [h] at ih
      rw [joinBlank_cons_cons, ih, hc, hd]
      rfl
  | case4 c d rest hcd hnil ih => exact absurd hnil (splitBlank_ne_nil (d :: rest))
  | case5 c d rest hcd p ps hs ih =>
    rw [splitBlank_push c d rest hcd p ps hs]
    rw [hs] at ih
    cases ps with
    | nil => simpa [joinBlank] using congrArg (c :: ·) ih
    | cons q qs =>
      rw [joinBlank_cons_cons] at ih ⊢
      simpa using congrArg (c :: ·) ih

/-- A piece whose `strip` is empty consists of whitespace only. -/
theorem pyStrip_eq_nil_imp (p : Str) (h : pyStrip p = []) :
    ∀ c ∈ p, c.isWhitespace = true := by
  unfold pyStrip at h
  rw [List.reverse_eq_nil_iff, List.dropWhile_eq_nil_iff] at h
  intro c hc
  have hsplit := List.takeWhile_append_dropWhile (p := Char.isWhitespace) (l := p)
  rw [← hsplit] at hc
  rcases List.mem_append.mp hc with h1 | h2
  · exact List.mem_takeWhile_imp h1
  · exact h c (List.mem_reverse.mpr h2)

/-- `strip` splits every string into leading whitespace, stripped core, trailing
whitespace: the "modulo trimming" part of the partition property. -/
theorem pyStrip_decomposition (p : Str) :
    p = p.takeWhile Char.isWhitespace ++ pyStrip p
          ++ ((p.dropWhile Char.isWhitespace).reverse.takeWhile Char.isWhitespace).reverse
    ∧ (∀ c ∈ p.takeWhile Char.isWhitespace, c.isWhitespace = true)
    ∧ (∀ c ∈ ((p.dropWhile Char.isWhitespace).reverse.takeWhile Char.isWhitespace).reverse,
        c.isWhitespace = true) := by
  refine ⟨?_, fun c hc => List.mem_takeWhile_imp hc,
    fun c hc => List.mem_takeWhile_imp (List.mem_reverse.mp hc)⟩
  have hd : (p.dropWhile Char.isWhitespace).reverse
      = (p.dropWhile Char.isWhitespace).reverse.takeWhile Char.isWhitespace
        ++ (p.dropWhile Char.isWhitespace).reverse.dropWhile Char.isWhitespace :=
    (List.takeWhile_append_dropWhile _ _).symm
  calc p = p.takeWhile Char.isWhitespace ++ p.dropWhile Char.isWhitespace :=
        (List.takeWhile_append_dropWhile _ _).symm
    _ = p.takeWhile Char.isWhitespace ++ (p.dropWhile Char.isWhitespace).reverse.reverse := by
        rw [List.reverse_reverse]
    _ = p.takeWhile Char.isWhitespace
          ++ ((p.dropWhile Char.isWhitespace).reverse.takeWhile Char.isWhitespace
              ++ (p.dropWhile Char.isWhitespace).reverse.dropWhile Char.isWhitespace).reverse := by
        rw [← hd]
    _ = p.takeWhile Char.isWhitespace
          ++ (pyStrip p
              ++ ((p.dropWhile Char.isWhitespace).reverse.takeWhile Char.isWhitespace).reverse) := by
        rw [List.reverse_append]; rfl
    _ = p.takeWhile Char.isWhitespace ++ pyStrip p
          ++ ((p.dropWhile Char.isWhitespace).reverse.takeWhile Char.isWhitespace).reverse := by
        rw [List.append_assoc]

/-! ## Helper lemmas: chunker loops -/

theorem semanticLoop_lengths (i : Nat) (j : Nat) (chunks : List Str) :
    (semanticLoop i j chunks).1.length = (semanticLoop i j chunks).2.length := by
  induction chunks generalizing j with
  | nil => rfl
  | cons c rest ih => simp [semanticLoop, ih]

theorem fallbackLoop_lengths (i : Nat) (j : Nat) (pieces : List Str) :
    (fallbackLoop i j pieces).1.length = (fallbackLoop i j pieces).2.length := by
  induction pieces generalizing j with
  | nil => rfl
  | cons p rest ih =>
    simp only [fallbackLoop]
    split <;> simp [ih]

theorem applyChunkLoop_lengths (chunker : Str → Except Unit (List Str))
    (i : Nat) (texts : List Str) :
    (applyChunkLoop chunker i texts).1.length = (applyChunkLoop chunker i texts).2.length := by
  induction texts generalizing i with
  | nil => rfl
  | cons t ts ih =>
    simp only [applyChunkLoop]
    rcases h : chunker t with e | chunks <;>
      simp [h, semanticLoop_lengths, fallbackLoop_lengths, ih]

theorem semanticLoop_size (i : Nat) (j : Nat) (chunks : List Str) :
    ∀ pr ∈ (semanticLoop i j chunks).1.zip (semanticLoop i j chunks).2,
      pr.2.chunk_size = pr.1.length := by
  induction chunks generalizing j with
  | nil => intro pr hpr; simp [semanticLoop] at hpr
  | cons c rest ih =>
    intro pr hpr
    simp only [semanticLoop, List.zip_cons_cons, List.mem_cons] at hpr
    rcases hpr with h | h
    · subst h; rfl
    · exact ih (j + 1) pr h

theorem fallbackLoop_size (i : Nat) (j : Nat) (pieces : List Str) :
    ∀ pr ∈ (fallbackLoop i j pieces).1.zip (fallbackLoop i j pieces).2,
      pr.2.chunk_size = pr.1.length := by
  induction pieces generalizing j with
  | nil => intro pr hpr; simp [fallbackLoop] at hpr
  | cons p rest ih =>
    intro pr hpr
    simp only [fallbackLoop] at hpr
    by_cases hp : pyStrip p = []
    · rw [if_pos hp] at hpr
      exact ih (j + 1) pr hpr
    · rw [if_neg hp] at hpr
      simp only [List.zip_cons_cons, List.mem_cons] at hpr
      rcases hpr with h | h
      · subst h; rfl
      · exact ih (j + 1) pr h

theorem applyChunkLoop_size (chunker : Str → Except Unit (List Str)) (i : Nat)
    (texts : List Str) :
    ∀ pr ∈ (applyChunkLoop chunker i texts).1.zip (applyChunkLoop chunker i texts).2,
      pr.2.chunk_size = pr.1.length := by
  induction texts generalizing i with
  | nil => intro pr hpr; simp [applyChunkLoop] at hpr
  | cons t ts ih =>
    intro pr hpr
    simp only [applyChunkLoop] at hpr
    rcases h : chunker t with e | chunks <;> rw [h] at hpr
    · rw [List.zip_append (fallbackLoop_lengths i 0 (splitBlank t))] at hpr
      rcases List.mem_append.mp hpr with h1 | h2
      · exact fallbackLoop_size i 0 (splitBlank t) pr h1
      · exact ih (i + 1) pr h2
    · rw [List.zip_append (semanticLoop_lengths i 0 chunks)] at hpr
      rcases List.mem_append.mp hpr with h1 | h2
      · exact semanticLoop_size i 0 chunks pr h1
      · exact ih (i + 1) pr h2

/-- The chunks kept by the fallback loop are exactly the stripped pieces that are
non-empty after stripping, in order. -/
theorem fallbackLoop_chunks (i : Nat) (j : Nat) (pieces : List Str) :
    (fallbackLoop i j pieces).1
      = ((pieces.map pyStrip).filter fun c => decide (c ≠ [])) := by
  induction pieces generalizing j with
  | nil => rfl
  | cons p rest ih =>
    simp only [fallbackLoop, List.map_cons, List.filter_cons]
    by_cases hp : pyStrip p = []
    · rw [if_pos hp]
      simp [hp, ih (j + 1)]
    · rw [if_neg hp]
      simp [hp, ih (j + 1)]

/-- Every metadata record the fallback loop emits points back, through its
`chunk_index`, to the raw piece (at offset `chunk_index - j`) whose stripped
content is the paired chunk. -/
theorem fallbackLoop_chunk_index (i : Nat) (j : Nat) (pieces : List Str) :
    ∀ (k : Nat) (m : SCMeta), ((fallbackLoop i j pieces).2)[k]? = some m →
      ∃ d p, m.chunk_index = j + d ∧ pieces[d]? = some p ∧ pyStrip p ≠ [] ∧
        ((fallbackLoop i j pieces).1)[k]? = some (pyStrip p) := by
  induction pieces generalizing j with
  | nil => intro k m hm; simp [fallbackLoop] at hm
  | cons p rest ih =>
    intro k m hm
    simp only [fallbackLoop] at hm ⊢
    by_cases hp : pyStrip p = []
    · rw [if_pos hp] at hm ⊢
      obtain ⟨d, q, hidx, hq, hqs, hc⟩ := ih (j + 1) k m hm
      exact ⟨d + 1, q, by omega, by simpa using hq, hqs, hc⟩
    · rw [if_neg hp] at hm ⊢
      cases k with
      | zero =>
        simp only [List.getElem?_cons_zero, Option.some_inj] at hm
        subst hm
        exact ⟨0, p, by simp, by simp, hp, by simp⟩
      | succ k =>
        simp only [List.getElem?_cons_succ] at hm ⊢
        obtain ⟨d, q, hidx, hq, hqs, hc⟩ := ih (j + 1) k m hm
        exact ⟨d + 1, q, by omega, by simpa using hq, hqs, hc⟩

/-! ## Helper lemmas: search -/

theorem dedupLoop_eq_spec (th : ℚ) (hits : List (Doc × ℚ)) (seen : List Str) :
    dedupLoop th hits seen
      = specFirstOccurrenceWins (hits.filter fun h => decide (th ≤ h.2)) seen := by
  induction hits generalizing seen with
  | nil => rfl
  | cons h rest ih =>
    obtain ⟨doc, score⟩ := h
    by_cases hth : th ≤ score
    · by_cases hseen : doc.page_content.take 100 ∈ seen
      · simp [dedupLoop, List.filter_cons, hth, hseen, specFirstOccurrenceWins, ih]
      · simp [dedupLoop, List.filter_cons, hth, hseen, specFirstOccurrenceWins, ih]
    · simp [dedupLoop, List.filter_cons, hth, ih]

theorem dedupLoop_score (th : ℚ) (hits : List (Doc × ℚ)) (seen : List Str) :
    ∀ r ∈ dedupLoop th hits seen, th ≤ r.similarity_score := by
  induction hits generalizing seen with
  | nil => intro r hr; simp [dedupLoop] at hr
  | cons h rest ih =>
    obtain ⟨doc, score⟩ := h
    intro r hr
    simp only [dedupLoop] at hr
    by_cases hth : th ≤ score
    · rw [if_pos hth] at hr
      by_cases hseen : doc.page_content.take 100 ∈ seen
      · rw [if_pos hseen] at hr
        exact ih seen r hr
      · rw [if_neg hseen] at hr
        rcases List.mem_cons.mp hr with h1 | h2
        · subst h1; exact hth
        · exact ih _ r h2
    · rw [if_neg hth] at hr
      exact ih seen r hr

theorem dedupLoop_avoid_seen (th : ℚ) (hits : List (Doc × ℚ)) (seen : List Str) :
    ∀ r ∈ dedupLoop th hits seen, r.content.take 100 ∉ seen := by
  induction hits generalizing seen with
  | nil => intro r hr; simp [dedupLoop] at hr
  | cons h rest ih =>
    obtain ⟨doc, score⟩ := h
    intro r hr
    simp only [dedupLoop] at hr
    by_cases hth : th ≤ score
    · rw [if_pos hth] at hr
      by_cases hseen : doc.page_content.take 100 ∈ seen
      · rw [if_pos hseen] at hr
        exact ih seen r hr
      · rw [if_neg hseen] at hr
        rcases List.mem_cons.mp hr with h1 | h2
        · subst h1; exact hseen
        · intro hmem
          exact ih _ r h2 (List.mem_cons_of_mem _ hmem)
    · rw [if_neg hth] at hr
      exact ih seen r hr

theorem dedupLoop_pairwise (th : ℚ) (hits : List (Doc × ℚ)) (seen : List Str) :
    (dedupLoop th hits seen).Pairwise
      fun a b => a.content.take 100 ≠ b.content.take 100 := by
  induction hits generalizing seen with
  | nil => simp [dedupLoop]
  | cons h rest ih =>
    obtain ⟨doc, score⟩ := h
    simp only [dedupLoop]
    by_cases hth : th ≤ score
    · rw [if_pos hth]
      by_cases hseen : doc.page_content.take 100 ∈ seen
      · rw [if_pos hseen]; exact ih seen
      · rw [if_neg hseen]
        refine List.pairwise_cons.mpr ⟨?_, ih _⟩
        intro r hr heq
        have := dedupLoop_avoid_seen th rest (doc.page_content.take 100 :: seen) r hr
        exact this (by rw [← heq]; exact List.mem_cons_self _ _)
    · rw [if_neg hth]; exact ih seen

theorem dedupLoop_all_below (th : ℚ) (hits : List (Doc × ℚ)) (seen : List Str)
    (h : ∀ p ∈ hits, p.2 < th) : dedupLoop th hits seen = [] := by
  induction hits generalizing seen with
  | nil => rfl
  | cons hd rest ih =>
    obtain ⟨doc, score⟩ := hd
    have hlt : score < th := h (doc, score) (List.mem_cons_self _ _)
    simp only [dedupLoop, if_neg (not_le.mpr hlt)]
    exact ih seen fun p hp => h p (List.mem_cons_of_mem _ hp)

/-! ## Helper lemmas: ingestion -/

theorem buildDocuments_length (mgr : EmbeddingManager) (n : Nat)
    (pairs : List (Str × SCMeta)) :
    (buildDocuments mgr n pairs).length = pairs.length := by
  induction pairs generalizing n with
  | nil => rfl
  | cons pr rest ih =>
    obtain ⟨c, m⟩ := pr
    simp [buildDocuments, ih]

theorem buildDocuments_getElem (mgr : EmbeddingManager) (pairs : List (Str × SCMeta)) :
    ∀ (n i : Nat) (c : Str) (m : SCMeta), pairs[i]? = some (c, m) →
      (buildDocuments mgr n pairs)[i]? = some ⟨c, ⟨m, n + i, mgr.embedding_model⟩⟩ := by
  induction pairs with
  | nil => intro n i c m h; simp at h
  | cons pr rest ih =>
    intro n i c m h
    obtain ⟨c0, m0⟩ := pr
    cases i with
    | zero =>
      simp only [List.getElem?_cons_zero, Option.some_inj, Prod.mk.injEq] at h
      obtain ⟨h1, h2⟩ := h
      subst h1; subst h2
      simp [buildDocuments]
    | succ i =>
      simp only [List.getElem?_cons_succ] at h
      simp only [buildDocuments, List.getElem?_cons_succ]
      have hrec := ih (n + 1) i c m h
      rw [hrec]
      have : n + 1 + i = n + (i + 1) := by omega
      rw [this]

theorem zip_getElem?_of {α β : Type} (l1 : List α) :
    ∀ (l2 : List β) (i : Nat) (a : α) (b : β),
      l1[i]? = some a → l2[i]? = some b → (l1.zip l2)[i]? = some (a, b) := by
  induction l1 with
  | nil => intro l2 i a b h1 h2; simp at h1
  | cons x xs ih =>
    intro l2 i a b h1 h2
    cases l2 with
    | nil => simp at h2
    | cons y ys =>
      cases i with
      | zero =>
        simp only [List.getElem?_cons_zero, Option.some_inj] at h1 h2
        subst h1; subst h2
        simp [List.zip_cons_cons]
      | succ i =>
        simp only [List.getElem?_cons_succ] at h1 h2
        simp only [List.zip_cons_cons, List.getElem?_cons_succ]
        exact ih ys i a b h1 h2

/-! ## Helper lemmas: orchestrator -/

theorem exitCode_eq_zero_iff (env : MainEnv) :
    exitCode env = 0 ↔ mainFn env = some true := by
  unfold exitCode
  rcases h : mainFn env with _ | b
  · simp [h]
  · cases b <;> simp [h]

/-! ## Claim theorems -/

/-- C1 (counterexample): with two raw candidates sharing their first-100-character
preview, the first scoring 0.5 and the second 0.9, a threshold of 0.7 keeps the
*second* candidate and drops the first — refuting "the first one encountered in
the backend's result order is kept and all later ones are dropped" as a statement
about raw candidates under every threshold. -/
theorem search_first_raw_candidate_counterexample :
    dupDocA.page_content.take 100 = dupDocB.page_content.take 100
    ∧ search_similar_chunks dupBackend "q".toList 2 (mkRat 7 10)
        = [⟨dupDocB.page_content, dupDocB.metadata, mkRat 9 10⟩]
    ∧ (⟨dupDocA.page_content, dupDocA.metadata, mkRat 1 2⟩ : SearchResult)
        ∉ search_similar_chunks dupBackend "q".toList 2 (mkRat 7 10)
    ∧ dupDocA.metadata ≠ dupDocB.metadata := by
  decide

/-- C1 (amended): the result sequence of `search_similar_chunks` contains no two
results with identical first-100-character previews; among the candidates whose
score meets the threshold, the first one encountered in the backend's result
order is kept and later same-preview ones are dropped (candidates below the
threshold are dropped regardless and never shadow a later candidate). -/
theorem search_dedup_after_threshold (backend : Str → Nat → Except Str (List (Doc × ℚ)))
    (query : Str) (k : Nat) (th : ℚ) (hits : List (Doc × ℚ))
    (hok : backend query k = Except.ok hits) :
    search_similar_chunks backend query k th = spec_search hits th
    ∧ (search_similar_chunks backend query k th).Pairwise
        (fun a b => a.content.take 100 ≠ b.content.take 100) := by
  constructor
  · simp only [search_similar_chunks, hok, spec_search]
    exact dedupLoop_eq_spec th hits []
  · simp only [search_similar_chunks, hok]
    exact dedupLoop_pairwise th hits []

/-- Witness for C1's amended theorem at the concrete duplicate-preview backend. -/
theorem search_dedup_after_threshold_witness :
    search_similar_chunks dupBackend "q".toList 2 (mkRat 7 10)
      = spec_search [(dupDocA, mkRat 1 2), (dupDocB, mkRat 9 10)] (mkRat 7 10)
    ∧ (search_similar_chunks dupBackend "q".toList 2 (mkRat 7 10)).Pairwise
        (fun a b => a.content.take 100 ≠ b.content.take 100) :=
  search_dedup_after_threshold dupBackend "q".toList 2 (mkRat 7 10)
    [(dupDocA, mkRat 1 2), (dupDocB, mkRat 9 10)] rfl

/-- C2: every result of `search_similar_chunks` scores at least the threshold,
and a threshold excluding every candidate yields the empty result sequence
rather than an error. -/
theorem search_respects_threshold (backend : Str → Nat → Except Str (List (Doc × ℚ)))
    (query : Str) (k : Nat) (th : ℚ) :
    (∀ r ∈ search_similar_chunks backend query k th, th ≤ r.similarity_score)
    ∧ (∀ hits, backend query k = Except.ok hits → (∀ p ∈ hits, p.2 < th) →
        search_similar_chunks backend query k th = []) := by
  constructor
  · intro r hr
    simp only [search_similar_chunks] at hr
    rcases hb : backend query k with e | hits <;> rw [hb] at hr
    · simp at hr
    · exact dedupLoop_score th hits [] r hr
  · intro hits hok hbelow
    simp only [search_similar_chunks, hok]
    exact dedupLoop_all_below th hits [] hbelow

/-- Witness for C2: a concrete kept result meets its threshold, and a threshold
of 1.1 above every candidate's score yields `[]`. -/
theorem search_respects_threshold_witness :
    ((⟨dupDocB.page_content, dupDocB.metadata, mkRat 9 10⟩ : SearchResult)
        ∈ search_similar_chunks dupBackend "q".toList 2 (mkRat 7 10))
    ∧ mkRat 7 10
        ≤ (⟨dupDocB.page_content, dupDocB.metadata, mkRat 9 10⟩ : SearchResult).similarity_score
    ∧ (∀ p ∈ [(dupDocA, mkRat 1 2), (dupDocB, mkRat 9 10)], p.2 < mkRat 11 10)
    ∧ search_similar_chunks dupBackend "q".toList 2 (mkRat 11 10) = [] :=
  ⟨by decide,
   (search_respects_threshold dupBackend "q".toList 2 (mkRat 7 10)).1 _ (by decide),
   by decide,
   (search_respects_threshold dupBackend "q".toList 2 (mkRat 11 10)).2
     [(dupDocA, mkRat 1 2), (dupDocB, mkRat 9 10)] rfl (by decide)⟩

/-- C9: when the backend similarity search raises, `search_similar_chunks`
returns the empty sequence instead of propagating the exception. -/
theorem search_error_returns_empty (backend : Str → Nat → Except Str (List (Doc × ℚ)))
    (query : Str) (k : Nat) (th : ℚ) (e : Str) (h : backend query k = Except.error e) :
    search_similar_chunks backend query k th = [] := by
  simp only [search_similar_chunks, h]

/-- Witness for C9 at a backend whose read raises. -/
theorem search_error_returns_empty_witness :
    failBackend "q".toList 5 = Except.error "db read failed".toList
    ∧ search_similar_chunks failBackend "q".toList 5 (mkRat 9 10) = [] :=
  ⟨rfl, search_error_returns_empty failBackend "q".toList 5 (mkRat 9 10)
    "db read failed".toList rfl⟩

/-- C6: ingesting an empty chunk list succeeds and leaves the collection count
unchanged — an empty ingest is a legal no-op. -/
theorem ingest_empty_noop (mgr : EmbeddingManager) (embed : Str → Option (List ℚ))
    (store : Store) :
    create_embeddings_from_chunks mgr embed store [] [] = (true, store)
    ∧ (get_database_stats mgr
        (create_embeddings_from_chunks mgr embed store [] []).2).total_chunks
      = (get_database_stats mgr store).total_chunks := by
  obtain ⟨recs⟩ := store
  constructor
  · simp [create_embeddings_from_chunks, buildDocuments]
  · simp [create_embeddings_from_chunks, buildDocuments, get_database_stats]

/-- C7: on a successful non-empty ingest, the records appended to the store are
exactly the built documents; the i-th of them carries `chunk_id = i`, the
manager's `embedding_model`, the untouched original metadata, and the i-th
chunk's content. -/
theorem ingest_metadata_stamping (mgr : EmbeddingManager)
    (embed : Str → Option (List ℚ)) (store : Store)
    (chunks : List Str) (metadata : List SCMeta) (hne : chunks ≠ [])
    (hlen : chunks.length = metadata.length)
    (hsucc : (create_embeddings_from_chunks mgr embed store chunks metadata).1 = true) :
    (create_embeddings_from_chunks mgr embed store chunks metadata).2.records
      = store.records ++ buildDocuments mgr 0 (chunks.zip metadata)
    ∧ (buildDocuments mgr 0 (chunks.zip metadata)).length = chunks.length
    ∧ ∀ (i : Nat) (c : Str) (m : SCMeta), chunks[i]? = some c → metadata[i]? = some m →
        (buildDocuments mgr 0 (chunks.zip metadata))[i]?
          = some ⟨c, ⟨m, i, mgr.embedding_model⟩⟩ := by
  refine ⟨?_, ?_, ?_⟩
  · simp only [create_embeddings_from_chunks] at hsucc ⊢
    by_cases hall : (buildDocuments mgr 0 (chunks.zip metadata)).all
        (fun d => (embed d.page_content).isSome) = true
    · rw [if_pos hall]
    · rw [if_neg hall] at hsucc
      simp at hsucc
  · rw [buildDocuments_length, List.length_zip, hlen, min_self]
  · intro i c m hc hm
    have := buildDocuments_getElem mgr (chunks.zip metadata) 0 i c m
      (zip_getElem?_of chunks metadata i c m hc hm)
    simpa using this

/-- Witness for C7 at a concrete two-chunk ingest into an empty store. -/
theorem ingest_metadata_stamping_witness :
    (["x".toList, "y".toList] ≠ ([] : List Str))
    ∧ ["x".toList, "y".toList].length = [meta0, meta1].length
    ∧ (create_embeddings_from_chunks mgrFixture embedFixture storeFixture
        ["x".toList, "y".toList] [meta0, meta1]).1 = true
    ∧ ((create_embeddings_from_chunks mgrFixture embedFixture storeFixture
          ["x".toList, "y".toList] [meta0, meta1]).2.records
        = storeFixture.records
            ++ buildDocuments mgrFixture 0 (["x".toList, "y".toList].zip [meta0, meta1])
      ∧ (buildDocuments mgrFixture 0 (["x".toList, "y".toList].zip [meta0, meta1])).length
          = ["x".toList, "y".toList].length
      ∧ ∀ (i : Nat) (c : Str) (m : SCMeta),
          ["x".toList, "y".toList][i]? = some c → [meta0, meta1][i]? = some m →
          (buildDocuments mgrFixture 0 (["x".toList, "y".toList].zip [meta0, meta1]))[i]?
            = some ⟨c, ⟨m, i, mgrFixture.embedding_model⟩⟩) :=
  ⟨by decide, by decide, by decide,
   ingest_metadata_stamping mgrFixture embedFixture storeFixture
     ["x".toList, "y".toList] [meta0, meta1] (by decide) (by decide) (by decide)⟩

/-- C3 (counterexample): when the service call raises, `generate_similar_question`
returns a *bare* formatted error string (the left summand), not a single-element
sequence — refuting the claim that a sequence is returned. -/
theorem gsq_error_not_sequence_counterexample :
    generate_similar_question failSvc "q".toList
      = Sum.inl ("❌ Error generating similar question: boom".toList)
    ∧ (generate_similar_question failSvc "q".toList).isRight = false := by
  decide

/-- C3 (amended): when the text-generation service raises during query expansion,
`generate_similar_question` returns the formatted error string itself — a bare
string, not a sequence — and does not raise. -/
theorem gsq_error_returns_bare_string (svc : Str → Except Str Str) (query : Str)
    (e : Str) (h : svc query = Except.error e) :
    generate_similar_question svc query = Sum.inl (gsqErrorText ++ e)
    ∧ (generate_similar_question svc query).isRight = false := by
  constructor <;> simp [generate_similar_question, h]

/-- Witness for C3's amended theorem at a concrete failing service. -/
theorem gsq_error_returns_bare_string_witness :
    failSvc "q".toList = Except.error "boom".toList
    ∧ (generate_similar_question failSvc "q".toList
          = Sum.inl (gsqErrorText ++ "boom".toList)
        ∧ (generate_similar_question failSvc "q".toList).isRight = false) :=
  ⟨rfl, gsq_error_returns_bare_string failSvc "q".toList "boom".toList rfl⟩

/-- C4 (counterexample): when no database exists and the operator declines the
build prompt, `main` returns `None` and the `__main__` guard exits with code 1,
not 0 — refuting "exit code 0 on declined build". -/
theorem declined_build_exit_code_counterexample :
    declineEnv.db_exists = false
    ∧ acceptsBuild declineEnv.user_choice = false
    ∧ exitCode declineEnv = 1
    ∧ exitCode declineEnv ≠ 0 := by
  decide

/-- C4 (amended): the process exits with code 0 exactly when the query loop is
reached (existing store, or accepted build with successful chunking and
ingestion) and terminates gracefully on a quit keyword; a declined build exits
with code 1, the same as a pipeline error before the query loop. -/
theorem exit_zero_iff_graceful_query_loop (env : MainEnv) :
    exitCode env = 0 ↔
      ((env.db_exists = true
          ∨ (acceptsBuild env.user_choice = true
              ∧ (∃ r, env.chunking = Except.ok r)
              ∧ env.ingest_success = true))
        ∧ run_search_mode env.questions = some true) := by
  rw [exitCode_eq_zero_iff]
  unfold mainFn
  by_cases hdb : env.db_exists = true
  · simp [hdb]
  · by_cases hacc : acceptsBuild env.user_choice = true
    · rcases hch : env.chunking with e | r
      · simp [hdb, hacc, hch]
      · by_cases hing : env.ingest_success = true
        · simp [hdb, hacc, hch, hing]
        · simp [hdb, hacc, hch, hing]
    · simp [hdb, hacc]

/-- C5: the fallback blank-line splitter induces a full partition — the raw
pieces joined with their original separators reconstruct the input exactly, the
kept chunks are the stripped non-empty pieces in order, dropped pieces are
whitespace-only, and every piece is its stripped core surrounded by whitespace. -/
theorem fallback_partition (text : Str) (i : Nat) :
    joinBlank (splitBlank text) = text
    ∧ (fallbackLoop i 0 (splitBlank text)).1
        = (((splitBlank text).map pyStrip).filter fun c => decide (c ≠ []))
    ∧ (∀ p ∈ splitBlank text, pyStrip p = [] → ∀ c ∈ p, c.isWhitespace = true)
    ∧ (∀ p ∈ splitBlank text,
        p = p.takeWhile Char.isWhitespace ++ pyStrip p
            ++ ((p.dropWhile Char.isWhitespace).reverse.takeWhile Char.isWhitespace).reverse) :=
  ⟨joinBlank_splitBlank text, fallbackLoop_chunks i 0 (splitBlank text),
   fun p _ hp => pyStrip_eq_nil_imp p hp,
   fun p _ => (pyStrip_decomposition p).1⟩

/-- Witness for C5 at a concrete text with padded, empty-ish and plain pieces. -/
theorem fallback_partition_witness :
    joinBlank (splitBlank trimText) = trimText
    ∧ (fallbackLoop 0 0 (splitBlank trimText)).1
        = (((splitBlank trimText).map pyStrip).filter fun c => decide (c ≠ []))
    ∧ (' '.isWhitespace = true)
    ∧ " a ".toList
        = " a ".toList.takeWhile Char.isWhitespace ++ pyStrip " a ".toList
          ++ ((" a ".toList.dropWhile Char.isWhitespace).reverse.takeWhile
                Char.isWhitespace).reverse :=
  ⟨(fallback_partition trimText 0).1,
   (fallback_partition trimText 0).2.1,
   (fallback_partition trimText 0).2.2.1 " ".toList (by decide) (by decide) ' ' (by decide),
   (fallback_partition trimText 0).2.2.2 " a ".toList (by decide)⟩

/-- C8: `apply_semantic_chunking` creates exactly one metadata record per chunk
(on both the semantic and fallback paths), and each record's `chunk_size` equals
the character length of its paired chunk content. -/
theorem chunk_size_invariant (chunker : Str → Except Unit (List Str)) (texts : List Str) :
    (apply_semantic_chunking chunker texts).1.length
      = (apply_semantic_chunking chunker texts).2.length
    ∧ ∀ pr ∈ (apply_semantic_chunking chunker texts).1.zip
        (apply_semantic_chunking chunker texts).2,
        pr.2.chunk_size = pr.1.length :=
  ⟨applyChunkLoop_lengths chunker 0 texts, applyChunkLoop_size chunker 0 texts⟩

/-- Witness for C8 at a run mixing a semantic section and a fallback section. -/
theorem chunk_size_invariant_witness :
    (apply_semantic_chunking chunkerFixture textsFixture).1.length
      = (apply_semantic_chunking chunkerFixture textsFixture).2.length
    ∧ (("c1".toList, (⟨0, 0, none, none, 2⟩ : SCMeta))
        ∈ (apply_semantic_chunking chunkerFixture textsFixture).1.zip
            (apply_semantic_chunking chunkerFixture textsFixture).2)
    ∧ (⟨0, 0, none, none, 2⟩ : SCMeta).chunk_size = "c1".toList.length :=
  ⟨(chunk_size_invariant chunkerFixture textsFixture).1,
   by decide,
   (chunk_size_invariant chunkerFixture textsFixture).2
     ("c1".toList, (⟨0, 0, none, none, 2⟩ : SCMeta)) (by decide)⟩

/-- C10: in the fallback path, each metadata record's `chunk_index` is the kept
chunk's position in the *raw* blank-line split (counting whitespace-only pieces
later dropped), so the recorded indices need not be contiguous — as on
`"a\n\n \n\nb"`, whose kept indices are `[0, 2]`. -/
theorem fallback_chunk_index_raw_position :
    (∀ (i : Nat) (text : Str) (k : Nat) (m : SCMeta),
        ((fallbackLoop i 0 (splitBlank text)).2)[k]? = some m →
        ∃ p, (splitBlank text)[m.chunk_index]? = some p ∧ pyStrip p ≠ [] ∧
          ((fallbackLoop i 0 (splitBlank text)).1)[k]? = some (pyStrip p))
    ∧ (fallbackLoop 0 0 (splitBlank gapText)).2.map SCMeta.chunk_index = [0, 2] := by
  constructor
  · intro i text k m hm
    obtain ⟨d, p, hidx, hp, hps, hc⟩ := fallbackLoop_chunk_index i 0 (splitBlank text) k m hm
    rw [Nat.zero_add] at hidx
    rw [hidx]
    exact ⟨p, hp, hps, hc⟩
  · decide

/-- Witness for C10's positional part at the non-contiguous example. -/
theorem fallback_chunk_index_raw_position_witness :
    ((fallbackLoop 0 0 (splitBlank gapText)).2)[1]?
      = some (⟨0, 2, none, none, 1⟩ : SCMeta)
    ∧ (∃ p, (splitBlank gapText)[(⟨0, 2, none, none, 1⟩ : SCMeta).chunk_index]? = some p
        ∧ pyStrip p ≠ [] ∧
        ((fallbackLoop 0 0 (splitBlank gapText)).1)[1]? = some (pyStrip p)) :=
  ⟨by decide,
   fallback_chunk_index_raw_position.1 0 gapText 1 ⟨0, 2, none, none, 1⟩ (by decide)⟩

end RAGAdv
